import Mathlib

/-!
# Verification of the mpdris2-rs MPD protocol/state core

A shallow embedding of the protocol parser (`src/mpd/parser`), response
framing (`src/mpd/client.rs`), snapshot construction (`src/mpd/types.rs`)
and the state-refresh / album-art logic (`src/mpd/stateserver.rs`),
together with theorems settling the specification claims.

Streams and line contents are modelled as `List Char` (the protocol is
newline-terminated UTF-8 text; binary payload bytes are represented as
characters, one list element per byte, which is faithful for the framing
logic since only counts and terminators matter). Fallible Rust functions
returning `anyhow::Result` are modelled as `Except String`; `Option` maps
to `Option`.
-/

/-- ASCII alphabetic test, as used by nom's `AsChar::is_alpha` for `char`
(ASCII-only). Matches Lean's `Char.isAlpha`. -/
def isAlphaChar (c : Char) : Bool := c.isAlpha

/-- Character class of MPD field names, from `is_field_name_char` in
`src/mpd/parser/mod.rs`: letters, underscore, hyphen. -/
def isFieldNameChar (c : Char) : Bool := c.isAlpha || c = '_' || c = '-'

/-- Character class of MPD command names, from `is_command_char` in
`src/mpd/parser/error.rs`: letters and underscore. -/
def isCommandChar (c : Char) : Bool := c.isAlpha || c = '_'

/-- Digits of a decimal numeral folded to a `Nat` (most significant first),
as Rust's integer `from_str` computes it. -/
def digitsToNat (ds : List Char) : Nat :=
  ds.foldl (fun a c => a * 10 + (c.toNat - '0'.toNat)) 0

/-- Rust `str::parse` for an unsigned integer type with exclusive upper
bound `lim` (`256` for `u8`, `2^64` for `u64`/`usize`): an optional leading
`'+'`, then one or more ASCII digits, nothing else; errors on overflow. -/
def parseRustNat (lim : Nat) (l : List Char) : Option Nat :=
  let ds := match l with
    | '+' :: rest => rest
    | _ => l
  if ds.isEmpty then none
  else if ds.all Char.isDigit then
    let v := digitsToNat ds
    if v < lim then some v else none
  else none

/-- Model of `str::parse::<usize>` (64-bit). -/
def parseUsize (l : List Char) : Option Nat := parseRustNat (2 ^ 64) l

/-- Model of `str::parse::<u64>`. -/
def parseU64 (l : List Char) : Option Nat := parseRustNat (2 ^ 64) l

/-- Model of `str::parse::<u8>`. -/
def parseU8 (l : List Char) : Option Nat := parseRustNat 256 l

deriving instance DecidableEq for Except

/-! ## Line parsing (`src/mpd/parser/mod.rs`) -/

/-- nom `tag`: expect one literal character. -/
def expectChar (c : Char) : List Char → Option (List Char)
  | x :: xs => if x = c then some xs else none
  | [] => none

/-- nom `tag`: expect a literal character sequence. -/
def expectChars : List Char → List Char → Option (List Char)
  | [], i => some i
  | c :: cs, i => (expectChar c i).bind (expectChars cs)

/-- nom `space1`: one or more spaces or tabs. -/
def space1 (i : List Char) : Option (List Char) :=
  let isSp : Char → Bool := fun c => c = ' ' || c = '\t'
  if (i.takeWhile isSp).isEmpty then none else some (i.dropWhile isSp)

/-- nom `digit1`: one or more ASCII digits, returning them and the rest. -/
def digit1 (i : List Char) : Option (List Char × List Char) :=
  let ds := i.takeWhile Char.isDigit
  if ds.isEmpty then none else some (ds, i.dropWhile Char.isDigit)

/-- Model of `parse_line_helper` from `src/mpd/parser/mod.rs`: name via
`take_while(is_field_name_char)`, the literal `": "`, value via
`take_till('\n')`, a final `"\n"`; returns `((name, value), rest)`. -/
def parse_line_helper (i : List Char) : Option ((List Char × List Char) × List Char) :=
  match expectChars [':', ' '] (i.dropWhile isFieldNameChar) with
  | none => none
  | some j =>
    match expectChar '\n' (j.dropWhile (fun c => c != '\n')) with
    | none => none
    | some rest =>
      some ((i.takeWhile isFieldNameChar, j.takeWhile (fun c => c != '\n')), rest)

/-- Model of `parse_line` from `src/mpd/parser/mod.rs`. Leftover input after the
newline is discarded (the Rust code returns only `res.1`). -/
def parse_line (s : String) : Except String (String × String) :=
  match parse_line_helper s.data with
  | some ((name, value), _) => .ok (String.mk name, String.mk value)
  | none => .error "parse line failed"

/-! ## Error-line parsing (`src/mpd/parser/error.rs`) -/

/-- Model of `MpdErrorType` from `src/mpd/parser/error.rs`. -/
inductive MpdErrorType where
  | Unknown (code : Nat)
  | NotList
  | BadArgument
  | BadPassword
  | Permission
  | NoExist
deriving DecidableEq, Repr

/-- Model of `impl From<usize> for MpdErrorType`. -/
def MpdErrorType.ofUsize (e : Nat) : MpdErrorType :=
  match e with
  | 1 => .NotList
  | 2 => .BadArgument
  | 3 => .BadPassword
  | 4 => .Permission
  | 50 => .NoExist
  | _ => .Unknown e

/-- Model of `MpdError` from `src/mpd/parser/error.rs`. -/
structure MpdError where
  source : MpdErrorType
  msg : String
  command_list_no : Nat
  current_command : String
deriving DecidableEq, Repr

/-- Model of `parse_error_line_helper` from `src/mpd/parser/error.rs`. The Rust
helper returns the tuple in the order `(error_id, msg, command_list_no,
current_command)` — note `msg` in second position. -/
def parse_error_line_helper (i : List Char) :
    Option (List Char × List Char × List Char × List Char) := do
  let i ← expectChars ['A', 'C', 'K'] i
  let i ← space1 i
  let i ← expectChar '[' i
  let (error_id, i) ← digit1 i
  let i ← expectChar '@' i
  let (command_list_no, i) ← digit1 i
  let i ← expectChar ']' i
  let i ← expectChar '{' i
  let current_command := i.takeWhile isCommandChar
  let i := i.dropWhile isCommandChar
  let i ← expectChar '}' i
  let msg := i.takeWhile (fun c => c ≠ '\n')
  let i := i.dropWhile (fun c => c ≠ '\n')
  let _ ← expectChar '\n' i
  some (error_id, msg, command_list_no, current_command)

/-- Model of `parse_error_line` from `src/mpd/parser/error.rs`. The caller
destructures the helper's tuple positionally as
`(error_id, command_no, current_command, msg)`, which does not match the
order in which the helper returns the pieces; the model reproduces that
positional binding exactly. -/
def parse_error_line (s : String) : Except String MpdError :=
  match parse_error_line_helper s.data with
  | none => .error "error parsing mpd error line"
  | some (error_id, command_no, current_command, msg) =>
    match parseUsize error_id with
    | none => .error "invalid digit in error id"
    | some code =>
      match parseUsize command_no with
      | none => .error "invalid digit in command list number"
      | some listNo =>
        .ok { source := MpdErrorType.ofUsize code
              msg := String.mk msg
              command_list_no := listNo
              current_command := String.mk current_command }

/-! ## Response framing (`read_response` in `src/mpd/client.rs`)

The TCP byte stream is modelled as a `List Char`, one element per byte
(ASCII text plus raw payload bytes). `read_line` reads up to and including
the first newline (returning the remainder of the stream at end of input,
as `BufRead::read_line` does at EOF), `read_exact` takes an exact count of
elements. -/

/-- Model of `MpdResponse` from `src/mpd/types.rs`: ordered fields plus optional
binary payload. -/
structure MpdResponse where
  fields : List (String × String)
  binary : Option (List Char)
deriving DecidableEq, Repr

/-- Model of `HashMap::entry(name).or_insert_with(|| vec![value]).push(value)` — one
step of `MpdResponse::field_map` (`src/mpd/types.rs`): a missing key is
first bound to `vec![value]` and then the value is pushed again. -/
def fmStep (m : String → Option (List String)) (p : String × String) :
    String → Option (List String) :=
  fun k =>
    if k = p.1 then
      match m p.1 with
      | none => some [p.2, p.2]
      | some l => some (l ++ [p.2])
    else m k

/-- The map built by `MpdResponse::field_map` over a field list, modelled
as a lookup function. -/
def fieldMapL (fields : List (String × String)) : String → Option (List String) :=
  fields.foldl fmStep (fun _ => none)

/-- Model of `MpdResponse::field_map` from `src/mpd/types.rs`. -/
def field_map (resp : MpdResponse) : String → Option (List String) :=
  fieldMapL resp.fields

/-- Error outcomes of `read_response`; the Rust code returns `anyhow`
errors, distinguished here by origin: a line/length parse failure, a
successfully parsed ACK line (the `MpdError` value), an unexpected end of
stream inside `read_exact`, and the explicit framing `bail!` after a
binary chunk. -/
inductive ReadErr where
  | parseFailed (msg : String)
  | mpdErr (e : MpdError)
  | lenErr (msg : String)
  | eofErr
  | frameErr (msg : String)
deriving DecidableEq, Repr

/-- Read one line, up to and including the first `'\n'`; at end of input
the remaining characters (possibly none) are returned as the line. -/
def readLine : List Char → List Char × List Char
  | [] => ([], [])
  | c :: cs =>
    if c = '\n' then (['\n'], cs)
    else
      let (l, r) := readLine cs
      (c :: l, r)

/-- Read exactly `n` characters; `none` if the stream is shorter. -/
def readExact : Nat → List Char → Option (List Char × List Char)
  | 0, s => some ([], s)
  | _ + 1, [] => none
  | n + 1, c :: cs => (readExact n cs).map fun (a, b) => (c :: a, b)

/-- The loop body of `read_response` (`src/mpd/client.rs`), with explicit
fuel; `readResponse` supplies fuel exceeding the stream length, which is
enough because every iteration that recurses consumes at least one
character. -/
def readRespGo : Nat → List Char → List (String × String) → Except ReadErr MpdResponse
  | 0, _, _ => .error (.parseFailed "unreachable: fuel exhausted")
  | fuel + 1, stream, fields =>
    let (buf, rest) := readLine stream
    if ['O', 'K'].isPrefixOf buf then
      .ok ⟨fields, none⟩
    else if ['A', 'C', 'K'].isPrefixOf buf then
      match parse_error_line (String.mk buf) with
      | .ok e => .error (.mpdErr e)
      | .error m => .error (.parseFailed m)
    else
      match parse_line (String.mk buf) with
      | .error m => .error (.parseFailed m)
      | .ok (name, value) =>
        let fields := fields ++ [(name, value)]
        if name = "binary" then
          match parseU64 value.data with
          | none => .error (.lenErr "invalid binary length")
          | some n =>
            match readExact n rest with
            | none => .error .eofErr
            | some (payload, rest) =>
              -- the single byte after the payload is read and discarded
              match rest with
              | [] => .error .eofErr
              | _ :: rest =>
                let (okbuf, _) := readLine rest
                if ['O', 'K'].isPrefixOf okbuf then .ok ⟨fields, some payload⟩
                else .error (.frameErr "Expecting OK after binary chunk")
        else
          readRespGo fuel rest fields

/-- Model of `read_response` from `src/mpd/client.rs`. -/
def readResponse (stream : List Char) : Except ReadErr MpdResponse :=
  readRespGo (stream.length + 1) stream []

example :
    readResponse "field: value\nfieldtwo: valuetwo\nOK\n".data =
      .ok ⟨[("field", "value"), ("fieldtwo", "valuetwo")], none⟩ := by decide

example :
    readResponse ("binary: 4\n".data ++ "abcd".data ++ '\n' :: "OK\n".data) =
      .ok ⟨[("binary", "4")], some "abcd".data⟩ := by decide

/-! ## Status snapshots (`src/mpd/types.rs`) -/

/-- Model of `PlayerStateChange` from `src/types.rs`. -/
inductive PlayerStateChange where
  | Playback
  | Loop
  | Shuffle
  | Volume
  | Song
  | NextSong
  | Tracklist
deriving DecidableEq, Repr

/-- Model of `MpdStateChanged::from` for idle-notification subsystem names
(`src/mpd/types.rs`). -/
inductive MpdStateChanged where
  | StoredPlaylist
  | CurrentPlaylist
  | Player
  | Mixer
  | Options
  | Unknown (s : String)
deriving DecidableEq, Repr

/-- Model of `From<&str> for MpdStateChanged`. -/
def MpdStateChanged.ofStr (i : String) : MpdStateChanged :=
  match i with
  | "stored_playlist" => .StoredPlaylist
  | "playlist" => .CurrentPlaylist
  | "player" => .Player
  | "mixer" => .Mixer
  | "options" => .Options
  | _ => .Unknown i

/-- Rust `str::parse::<f64>` restricted to the plain decimal forms MPD
emits (optional sign, integer digits, optional fraction digits, at least
one digit in total); exponent and non-finite forms are outside the
modelled grammar. The value is kept exact as a rational. -/
def parseF64 (l : List Char) : Option Rat :=
  let (neg, rest) :=
    match l with
    | '-' :: r => (true, r)
    | '+' :: r => (false, r)
    | _ => (false, l)
  let intPart := rest.takeWhile Char.isDigit
  let rest2 := rest.dropWhile Char.isDigit
  let mkVal : List Char → List Char → Option Rat := fun ip fp =>
    if ip.isEmpty && fp.isEmpty then none
    else
      let v : Rat := (digitsToNat ip : Rat) + (digitsToNat fp : Rat) / ((10 : Rat) ^ fp.length)
      some (if neg then -v else v)
  match rest2 with
  | [] => mkVal intPart []
  | '.' :: frac => if frac.all Char.isDigit then mkVal intPart frac else none
  | _ => none

/-- Model of `MpdPlayingState` from `src/mpd/types.rs`; the two `Duration` fields
(built via `Duration::from_secs_f64`) are kept as exact rationals. -/
structure MpdPlayingState where
  elapsed : Rat
  duration : Rat
deriving DecidableEq, Repr

/-- Model of `MpdPlaybackState` from `src/mpd/types.rs`. -/
inductive MpdPlaybackState where
  | Playing (s : MpdPlayingState)
  | Paused (s : MpdPlayingState)
  | Stopped
deriving DecidableEq, Repr

/-- Model of `std::mem::discriminant` equality on `MpdPlaybackState`: compares the
variant only, ignoring the payload. -/
def MpdPlaybackState.sameKind : MpdPlaybackState → MpdPlaybackState → Bool
  | .Playing _, .Playing _ => true
  | .Paused _, .Paused _ => true
  | .Stopped, .Stopped => true
  | _, _ => false

/-- Model of `MpdLoopState` from `src/mpd/types.rs`. -/
inductive MpdLoopState where
  | None
  | Track
  | Playlist
deriving DecidableEq, Repr

/-- Model of `mpd_num_to_bool` from `src/mpd/types.rs`. -/
def mpd_num_to_bool (i : String) : Except String Bool :=
  match i with
  | "0" => .ok false
  | "1" => .ok true
  | _ => .error "invalid field: expect 0/1"

/-- Model of `MpdLoopState::from_mpd` from `src/mpd/types.rs`. -/
def MpdLoopState.from_mpd (repeatS singleS : String) : Except String MpdLoopState := do
  let r ← mpd_num_to_bool repeatS
  let s ← mpd_num_to_bool singleS
  if r && s then pure .Track
  else if r && !s then pure .Playlist
  else pure .None

/-- Metadata / status maps as produced by `field_map`. -/
abbrev FieldMap := String → Option (List String)

/-- Model of `MpdState` from `src/mpd/types.rs`. `volume` is the `u8` value,
`album_art` keeps the `PathBuf` as a string. -/
structure MpdState where
  playback_state : MpdPlaybackState
  loop_state : MpdLoopState
  random : Bool
  volume : Nat
  song : Option (Nat × Nat)
  next_song : Option (Nat × Nat)
  playlistlength : Nat
  current_song : Option FieldMap
  album_art : Option String

/-- Model of `c[0]` on a `field_map` value list. `field_map` never produces an
empty list, so the default is never taken where the source indexes. -/
def firstVal (l : List String) : String := l.headD ""

/-- The value a `get_or_complain` call yields for `name`: the first stored
value when present, the empty string otherwise. -/
def gocVal (status : FieldMap) (name : String) : String :=
  match status name with
  | some c => firstVal c
  | none => ""

/-- The contribution of a `get_or_complain` call to `missing_fields`. -/
def gocMiss (status : FieldMap) (name : String) : List String :=
  match status name with
  | some _ => []
  | none => [name]

/-- The `missing_fields` list after the five unconditional
`get_or_complain` calls (state, repeat, single, random, volume), in call
order. -/
def mfCore (status : FieldMap) : List String :=
  gocMiss status "state" ++ gocMiss status "repeat" ++
    gocMiss status "single" ++ gocMiss status "random" ++ gocMiss status "volume"

/-- Model of `Duration::from_secs_f64`: `none` stands for the Rust panic,
raised on negative seconds or on overflow of `Duration` (at least `2^64`
seconds); NaN and infinity lie outside `parseF64`'s grammar. The value is
kept as the exact rational (the nanosecond rounding of `Duration` never
influences any claim). -/
def durationFromSecsF64 (secs : Rat) : Option Rat :=
  if 0 ≤ secs ∧ secs < 2 ^ 64 then some secs else none

/-- The outcome standing for the `Duration::from_secs_f64` panic inside
`MpdState::from` (`src/mpd/types.rs` lines 97–98): the construction does
not return cleanly there, it aborts the surrounding task. It is kept
distinguishable by this marker message. -/
def durationPanicMsg : String :=
  "panicked: Duration.from_secs_f64 on negative or overflowing seconds"

/-- The playback-state part of `MpdState::from`: the `play`/`pause` branch
also fetches elapsed and duration, checks `missing_fields` before parsing,
then parses each value and feeds it to `Duration::from_secs_f64` (whose
panic is modelled as the distinguished `durationPanicMsg` outcome); the
other branch checks `missing_fields` and yields `Stopped`. -/
def pbResOf (status : FieldMap) : Except String MpdPlaybackState :=
  if gocVal status "state" = "play" ∨ gocVal status "state" = "pause" then
    if mfCore status ++ gocMiss status "elapsed" ++ gocMiss status "duration" ≠ [] then
      .error "missing fields from MPD status"
    else
      -- evaluation order of the source: parse elapsed, convert (may panic),
      -- parse duration, convert (may panic)
      match parseF64 (gocVal status "elapsed").data with
      | none => .error "invalid elapsed"
      | some e =>
        match durationFromSecsF64 e with
        | none => .error durationPanicMsg
        | some e2 =>
          match parseF64 (gocVal status "duration").data with
          | none => .error "invalid duration"
          | some d =>
            match durationFromSecsF64 d with
            | none => .error durationPanicMsg
            | some d2 =>
              .ok (if gocVal status "state" = "play" then MpdPlaybackState.Playing ⟨e2, d2⟩
                else MpdPlaybackState.Paused ⟨e2, d2⟩)
  else if mfCore status ≠ [] then .error "missing fields from MPD status"
  else .ok .Stopped

/-- The song-identity rule of `MpdState::from`: `Some` only when both
constituent fields are present, parsing both as `u64`. -/
def songPairOf (status : FieldMap) (posKey idKey : String) :
    Except String (Option (Nat × Nat)) :=
  match status posKey, status idKey with
  | some s, some sid =>
    match parseU64 (firstVal s).data, parseU64 (firstVal sid).data with
    | some a, some b => .ok (some (a, b))
    | _, _ => .error "invalid song position/id"
  | _, _ => .ok none

/-- Model of `MpdState::from` (`src/mpd/types.rs`). The `HashMap::remove` calls all
target distinct keys, each read once, so the map is modelled as a pure
lookup. `missing_fields` accumulates in call order; both branches check it
before any value is parsed, exactly as the source does. -/
def mpdStateFrom (status : FieldMap) (metadata : Option FieldMap) :
    Except String MpdState :=
  match pbResOf status with
  | .error e => .error e
  | .ok playback_state =>
    match songPairOf status "song" "songid" with
    | .error e => .error e
    | .ok song =>
      match songPairOf status "nextsong" "nextsongid" with
      | .error e => .error e
      | .ok next_song =>
        match MpdLoopState.from_mpd (gocVal status "repeat") (gocVal status "single") with
        | .error e => .error e
        | .ok loop_state =>
          match mpd_num_to_bool (gocVal status "random") with
          | .error e => .error e
          | .ok random =>
            match parseU8 (gocVal status "volume").data with
            | none => .error "invalid volume"
            | some volume =>
              .ok { playback_state, loop_state, random, volume, song, next_song
                    playlistlength :=
                      ((status "playlistlength").bind fun s =>
                        parseU64 (firstVal s).data).getD 0
                    current_song := metadata
                    album_art := none }

/-! ## State refresh (`update_status` in `src/mpd/stateserver.rs`)

`update_status` is modelled as a function of the previous snapshot and an
environment fixing the outcome of each external interaction (command
responses, the album-art protocol, filesystem tests). It yields the trace
of externally visible actions in program order together with the refresh
result. Event sends are modelled as always succeeding (a
`broadcast::Sender` with at least one live receiver). -/

/-- Externally visible steps of one `update_status` run, in program
order. -/
inductive Act where
  | queryStatus
  | queryCurrentsong
  | queryArt
  | removeFile
  | swap
  | emit (e : PlayerStateChange)
deriving DecidableEq, Repr

/-- Environment of one `update_status` run: outcomes of the `status` and
`currentsong` commands, of the `update_album_art` call, of the
`old.album_art` `is_file()` test, and of `fs::remove_file`. -/
structure UpdateEnv where
  statusResp : Except String MpdResponse
  currentsongResp : Except String MpdResponse
  artResult : Except String String
  oldArtIsFile : Bool
  removeResult : Except String Unit

/-- The comparison block of `update_status` (`src/mpd/stateserver.rs`,
the six `tx.send` sites in source order): playback-state discriminant,
loop mode, shuffle flag, song identity, next-song identity, volume. -/
def diffEvents (old new : MpdState) : List PlayerStateChange :=
  (if !(new.playback_state.sameKind old.playback_state) then [.Playback] else []) ++
  (if new.loop_state ≠ old.loop_state then [.Loop] else []) ++
  (if new.random ≠ old.random then [.Shuffle] else []) ++
  (if new.song ≠ old.song then [.Song] else []) ++
  (if new.next_song ≠ old.next_song then [.NextSong] else []) ++
  (if new.volume ≠ old.volume then [.Volume] else [])

/-- Publication tail of `update_status`: the exclusive write of the new
snapshot followed by the comparison sends. -/
def publishActs (old new : MpdState) : List Act :=
  .swap :: (diffEvents old new).map .emit

/-- The album-art / publication part of `update_status`
(`src/mpd/stateserver.rs` lines 169–215), after the new snapshot has been
constructed. -/
def updateStatusTail (env : UpdateEnv) (old : MpdState) (acts : List Act)
    (new : MpdState) : List Act × Except String MpdState :=
  if new.song.isSome && new.song ≠ old.song then
    match env.artResult with
    | .ok newPath =>
      let new := { new with album_art := some newPath }
      match old.album_art with
      | some _ =>
        if env.oldArtIsFile then
          match env.removeResult with
          | .error e => (acts ++ [.queryArt, .removeFile], .error e)
          | .ok _ => (acts ++ [.queryArt, .removeFile] ++ publishActs old new, .ok new)
        else (acts ++ [.queryArt] ++ publishActs old new, .ok new)
      | none => (acts ++ [.queryArt] ++ publishActs old new, .ok new)
    | .error _ =>
      -- failure is logged; album_art stays as constructed (None)
      (acts ++ [.queryArt] ++ publishActs old new, .ok new)
  else if new.song.isSome then
    let new := { new with album_art := old.album_art }
    (acts ++ publishActs old new, .ok new)
  else
    match old.album_art with
    | some _ =>
      if env.oldArtIsFile then
        match env.removeResult with
        | .error e => (acts ++ [.removeFile], .error e)
        | .ok _ => (acts ++ [.removeFile] ++ publishActs old new, .ok new)
      else (acts ++ publishActs old new, .ok new)
    | none => (acts ++ publishActs old new, .ok new)

/-- Model of `update_status` from `src/mpd/stateserver.rs`. -/
def updateStatus (env : UpdateEnv) (old : MpdState) :
    List Act × Except String MpdState :=
  match env.statusResp with
  | .error e => ([.queryStatus], .error e)
  | .ok statusResp =>
    if statusResp.fields.any (fun p => p.1 = "song") then
      match env.currentsongResp with
      | .error e => ([.queryStatus, .queryCurrentsong], .error e)
      | .ok cs =>
        match mpdStateFrom (field_map statusResp) (some (field_map cs)) with
        | .error e => ([.queryStatus, .queryCurrentsong], .error e)
        | .ok new => updateStatusTail env old [.queryStatus, .queryCurrentsong] new
    else
      match mpdStateFrom (field_map statusResp) none with
      | .error e => ([.queryStatus], .error e)
      | .ok new => updateStatusTail env old [.queryStatus] new

/-! ## Album-art protocol (`update_album_art` in `src/mpd/stateserver.rs`)

The function is modelled against an environment listing the successive
responses each command would produce (an exhausted list behaves as a
connection error). The cache file is tracked as its accumulated content;
the returned path is represented by the song id joined to the cache
directory. `Option::unwrap` on `None` is modelled as a distinguished
`panicked` outcome — in Rust it aborts the surrounding task. -/

/-- Result of one `update_album_art` run: the `Ok(pic_path)` return
together with the bytes written to the file, an error return, or a panic
reached inside the function. -/
inductive ArtOutcome where
  | ok (id : String) (file : List Char)
  | err (msg : String)
  | panicked (msg : String)
deriving DecidableEq, Repr

/-- Environment of one `update_album_art` run: the `currentsong` response,
the successive `readpicture` responses, whether the `albumart` command
itself succeeds and its successive responses. -/
structure ArtEnv where
  currentsongResp : Except String MpdResponse
  readpictureResps : List (Except String MpdResponse)
  albumartResps : List (Except String MpdResponse)

/-- The offset-continuation loop shared by both methods
(`src/mpd/stateserver.rs` lines 256–271 and 289–304). `fields` is the
field map of the **first** response of the method: the Rust loop reads
`size` and `binary_size` from the outer `fields` binding each iteration,
not from the freshly received response, whose payload alone is written. -/
def artLoop (fields : FieldMap) : List (Except String MpdResponse) → Nat →
    List Char → ArtOutcome
  | [], _, _ => .err "connection closed"
  | .error e :: _, _, _ => .err e
  | .ok resp :: rest, offset, content =>
    match fields "size" with
    | none => .err "bad mpd response: no size"
    | some sizeL =>
      match parseU64 (firstVal sizeL).data with
      | none => .err "invalid size"
      | some size =>
        match parseU64 (firstVal ((fields "binary").getD [])).data with
        | none => .err "invalid binary size"
        | some binary_size =>
          match resp.binary with
          | none => .panicked "Option::unwrap on None: continuation response without binary chunk"
          | some b =>
            let content := content ++ b
            if binary_size + offset ≥ size then .ok "" content
            else artLoop fields rest (offset + binary_size) content

/-- One method of `update_album_art` from its first response on: write the
first chunk, then run the continuation loop while the declared size and
the first chunk's declared length differ as strings. Returns `none` when
the first response carries no `binary` field (the method yields no data
and the function falls through). -/
def artMethod (resp0 : MpdResponse) (conts : List (Except String MpdResponse)) :
    Option ArtOutcome :=
  let fields := field_map resp0
  if (fields "binary").isSome then some (
    match fields "size" with
    | none => .err "bad mpd response: no size"
    | some sizeL =>
      let size := firstVal sizeL
      let binary_size := firstVal ((fields "binary").getD [])
      match resp0.binary with
      | none => .panicked "Option::unwrap on None: first response without binary payload"
      | some b0 =>
        if size ≠ binary_size then
          match parseU64 binary_size.data with
          | none => .err "invalid binary size"
          | some bs => artLoop fields conts (0 + bs) b0
        else .ok "" b0)
  else none

/-- Model of `update_album_art` from `src/mpd/stateserver.rs`. The pre-existing
file at `pic_path` is deleted and the file recreated empty before any
download attempt; when neither method yields data the function still
flushes and returns `Ok(pic_path)`. -/
def updateAlbumArt (env : ArtEnv) : ArtOutcome :=
  match env.currentsongResp with
  | .error e => .err e
  | .ok resp =>
    match field_map resp "file" with
    | none => .err "invalid MPD response: no current song uri"
    | some _uriL =>
      match field_map resp "Id" with
      | none => .err "invalid MPD response: no current song ID"
      | some idL =>
        let id := firstVal idL
        let withId : ArtOutcome → ArtOutcome := fun o =>
          match o with
          | .ok _ content => .ok id content
          | o => o
        match env.readpictureResps with
        | [] => .err "connection closed"
        | .error e :: _ => .err e
        | .ok resp0 :: conts =>
          match artMethod resp0 conts with
          | some outcome => withId outcome
          | none =>
            -- method A yielded no data: try albumart, ignoring command failure
            match env.albumartResps with
            | .ok resp0b :: contsB =>
              match artMethod resp0b contsB with
              | some outcome => withId outcome
              | none => .ok id []   -- "No album art found": flush, Ok(pic_path)
            | _ => .ok id []        -- `if let Ok(resp)` failed: flush, Ok(pic_path)

example : parse_line "volume: 40\n" = .ok ("volume", "40") := by decide
example : (parse_line "OK\n").isOk = false := by decide

/-! ## Claim C1 -/

/-- Claim C1: The claim states that `parse_error_line` succeeds on every
line of the form `ACK [<code>@<list_no>] {<command>} <message>\n` and
returns the corresponding pieces. It does not: the helper never consumes
the space between `]` and `{`, so a line in exactly that format is
rejected; and on the spaceless variant that the helper does accept, the
caller destructures the helper's `(error_id, msg, command_list_no,
current_command)` tuple as `(error_id, command_no, current_command, msg)`,
so the message is parsed as the list index and the remaining pieces land
in the wrong fields. -/
theorem c1_parse_error_line_misparses_ack :
    (parse_error_line "ACK [2@0] {play} No such song\n").isOk = false ∧
    parse_error_line "ACK [5@0]{play}7\n" =
      .ok { source := .Unknown 5, msg := "play", command_list_no := 7,
            current_command := "0" } := by
  constructor
  · decide
  · decide

/-! ## Claim C10 -/

/-- The values of the occurrences of `name` in a field list, in order. -/
def occVals (fields : List (String × String)) (name : String) : List String :=
  (fields.filter fun p => p.1 == name).map Prod.snd

/-- Unfolding lemma for the `field_map` fold, generalized over the
accumulator map. -/
theorem foldl_fmStep (fields : List (String × String)) (m : FieldMap) (k : String) :
    fields.foldl fmStep m k =
      match m k with
      | none =>
        match occVals fields k with
        | [] => none
        | v :: vs => some (v :: v :: vs)
      | some l => some (l ++ occVals fields k) := by
  induction fields generalizing m with
  | nil =>
    cases h : m k <;> simp [occVals, h]
  | cons p rest ih =>
    rw [List.foldl_cons, ih]
    by_cases hk : k = p.1
    · subst hk
      cases h : m p.1 <;>
        simp [fmStep, h, occVals, List.filter_cons, List.append_assoc]
    · have hk' : (p.1 == k) = false := by
        simp [beq_iff_eq]
        exact fun h => hk h.symm
      cases h : m k <;>
        simp [fmStep, h, hk, occVals, List.filter_cons, hk']

/-- Claim C10: `field_map` binds a name occurring in the response to a list
one longer than its number of occurrences, with the first occurrence's
value duplicated at positions 0 and 1; in particular a name occurring
exactly once with value `v` maps to `[v, v]`. A name with no occurrence
is absent. -/
theorem c10_field_map_duplicates_first_value
    (resp : MpdResponse) (name : String) :
    (occVals resp.fields name = [] → field_map resp name = none) ∧
    (∀ v vs, occVals resp.fields name = v :: vs →
      field_map resp name = some (v :: v :: vs) ∧
      (v :: v :: vs).length = (v :: vs).length + 1 ∧
      (v :: v :: vs).get? 0 = some v ∧ (v :: v :: vs).get? 1 = some v) ∧
    (∀ v, occVals resp.fields name = [v] → field_map resp name = some [v, v]) := by
  have hfold := foldl_fmStep resp.fields (fun _ => none) name
  refine ⟨fun h => ?_, fun v vs h => ?_, fun v h => ?_⟩
  · rw [field_map, fieldMapL, hfold, h]
  · rw [field_map, fieldMapL, hfold, h]
    simp
  · rw [field_map, fieldMapL, hfold, h]

/-- Witness for C10 at a concrete response: `b` occurs once with value
`y` and is mapped to `[y, y]`. -/
theorem c10_witness :
    field_map ⟨[("a", "x"), ("b", "y"), ("a", "z")], none⟩ "b" = some ["y", "y"] :=
  (c10_field_map_duplicates_first_value ⟨[("a", "x"), ("b", "y"), ("a", "z")], none⟩
    "b").2.2 "y" (by decide)

/-! ## Claims C7 and C8 -/

/-- Model of `takeWhile`/`dropWhile` split an append at the first failing
character. -/
theorem takeWhile_dropWhile_append (p : Char → Bool) (l r : List Char)
    (hl : ∀ c ∈ l, p c = true) (hr : ∀ c, r.head? = some c → p c = false) :
    (l ++ r).takeWhile p = l ∧ (l ++ r).dropWhile p = r := by
  induction l with
  | nil =>
    cases r with
    | nil => simp
    | cons c cs =>
      have hc := hr c rfl
      simp [List.takeWhile_cons, List.dropWhile_cons, hc]
  | cons a l ih =>
    have ha := hl a (by simp)
    obtain ⟨h1, h2⟩ := ih fun c hc => hl c (by simp [hc])
    simp [List.takeWhile_cons, List.dropWhile_cons, ha, h1, h2]

/-- Inversion for `expectChar`. -/
theorem expectChar_eq_some {c : Char} {i rest : List Char} :
    expectChar c i = some rest ↔ i = c :: rest := by
  cases i with
  | nil => simp [expectChar]
  | cons x xs =>
    by_cases hx : x = c
    · subst hx
      simp [expectChar]
    · simp [expectChar, hx]

/-- Inversion for `expectChars`. -/
theorem expectChars_eq_some {tag : List Char} : ∀ {i rest : List Char},
    expectChars tag i = some rest ↔ i = tag ++ rest := by
  induction tag with
  | nil => intro i rest; simp [expectChars]
  | cons c cs ih =>
    intro i rest
    simp only [expectChars, List.cons_append]
    constructor
    · intro h
      cases hopt : expectChar c i with
      | none => rw [hopt] at h; simp at h
      | some i2 =>
        rw [hopt] at h
        simp only [Option.some_bind] at h
        rw [expectChar_eq_some.mp hopt, ih.mp h]
    · rintro rfl
      rw [expectChar_eq_some.mpr rfl]
      simp only [Option.some_bind]
      exact ih.mpr rfl

/-- The assembled shape of a field line followed by arbitrary trailing
input, with the grouping made explicit. -/
def fieldLineThen (name value rest : List Char) : List Char :=
  name ++ (':' :: ' ' :: (value ++ ('\n' :: rest)))

/-- Completeness of the field-line parser: a line assembled from a
charset-conforming name and a newline-free value parses to exactly that
pair, with the remainder returned untouched. -/
theorem parse_line_helper_complete (name value rest : List Char)
    (hn : ∀ c ∈ name, isFieldNameChar c = true) (hv : '\n' ∉ value) :
    parse_line_helper (fieldLineThen name value rest) = some ((name, value), rest) := by
  obtain ⟨ht, hd⟩ := takeWhile_dropWhile_append isFieldNameChar name
    (':' :: ' ' :: (value ++ ('\n' :: rest))) hn
    (fun c hc => by simp at hc; subst hc; decide)
  obtain ⟨ht2, hd2⟩ := takeWhile_dropWhile_append (fun c => c != '\n') value
    ('\n' :: rest)
    (fun c hc => by simp only [bne_iff_ne, ne_eq, decide_eq_true_eq]; exact fun h => hv (h ▸ hc))
    (fun c hc => by simp at hc; subst hc; simp)
  have hcs : expectChars [':', ' '] (':' :: ' ' :: (value ++ ('\n' :: rest))) =
      some (value ++ ('\n' :: rest)) := expectChars_eq_some.mpr rfl
  simp only [parse_line_helper, fieldLineThen, hd, hcs, hd2, ht, ht2, expectChar]
  simp

/-- Soundness of the field-line parser: a successful parse decomposes the
input as `name ++ ": " ++ value ++ "\n" ++ rest` with the name in the
field-name charset and the value newline-free. -/
theorem parse_line_helper_sound {l n v rest : List Char}
    (h : parse_line_helper l = some ((n, v), rest)) :
    l = fieldLineThen n v rest ∧
      (∀ c ∈ n, isFieldNameChar c = true) ∧ '\n' ∉ v := by
  rw [parse_line_helper] at h
  split at h
  · exact absurd h (by simp)
  · rename_i i1 h1
    split at h
    · exact absurd h (by simp)
    · rename_i r h2
      simp only [Option.some.injEq, Prod.mk.injEq] at h
      obtain ⟨⟨hn, hv⟩, hr⟩ := h
      have hdec1 : l.takeWhile isFieldNameChar ++ l.dropWhile isFieldNameChar = l :=
        List.takeWhile_append_dropWhile isFieldNameChar l
      have hdec2 : i1.takeWhile (fun c => c != '\n') ++
          i1.dropWhile (fun c => c != '\n') = i1 :=
        List.takeWhile_append_dropWhile _ i1
      have hsp : l.dropWhile isFieldNameChar = ':' :: ' ' :: i1 := by
        simpa using expectChars_eq_some.mp h1
      have hnl := expectChar_eq_some.mp h2
      refine ⟨?_, ?_, ?_⟩
      · rw [fieldLineThen, ← hdec1, hsp, hn]
        subst hr
        rw [← hdec2, hnl, hv]
      · intro c hc
        rw [← hn] at hc
        exact List.mem_takeWhile_imp hc
      · intro hc
        rw [← hv] at hc
        have := List.mem_takeWhile_imp hc
        simp at this

/-- A single protocol line: either a newline-terminated body without
interior newlines, or (at end of input) a newline-free fragment. -/
def IsLine (l : List Char) : Prop :=
  (∃ body, l = body ++ ['\n'] ∧ '\n' ∉ body) ∨ '\n' ∉ l

/-- Decomposing a field line: the flat form
`name ++ ": " ++ value ++ "\n" ++ rest`. -/
theorem fieldLineThen_flat (name value rest : List Char) :
    fieldLineThen name value rest =
      (name ++ (':' :: ' ' :: value)) ++ ('\n' :: rest) := by
  simp [fieldLineThen]

/-- Claim C8: `parse_line` characterized on single lines: assembling
`name ++ ": " ++ value ++ "\n"` from a name in the letters/underscore/
hyphen charset and a newline-free value parses back to exactly
`(name, value)`; and on any single line, parsing succeeds precisely when
the line has that shape. Every other line fails with an error. -/
theorem c8_parse_line_characterization :
    (∀ name value : List Char,
      (∀ c ∈ name, isFieldNameChar c = true) → '\n' ∉ value →
      parse_line ⟨fieldLineThen name value []⟩ = .ok (⟨name⟩, ⟨value⟩)) ∧
    (∀ l : List Char, IsLine l →
      ((parse_line ⟨l⟩).isOk = true ↔
        ∃ name value, (∀ c ∈ name, isFieldNameChar c = true) ∧ '\n' ∉ value ∧
          l = fieldLineThen name value [])) := by
  constructor
  · intro name value hn hv
    have hc := parse_line_helper_complete name value [] hn hv
    simp only [parse_line]
    rw [hc]
  · intro l hline
    constructor
    · intro hok
      rw [parse_line] at hok
      cases hp : parse_line_helper l with
      | none => rw [hp] at hok; simp [Except.isOk, Except.toBool] at hok
      | some res =>
        obtain ⟨⟨n, v⟩, rest⟩ := res
        obtain ⟨hl, hn, hv⟩ := parse_line_helper_sound hp
        refine ⟨n, v, hn, hv, ?_⟩
        -- the line shape forces the parsed remainder to be empty
        have hpre : ∀ c ∈ n ++ (':' :: ' ' :: v), (fun c => c != '\n') c = true := by
          intro c hc
          simp only [bne_iff_ne, ne_eq, decide_eq_true_eq]
          rcases List.mem_append.mp hc with hcn | hcs
          · intro hceq
            have hch := hn c hcn
            rw [hceq] at hch
            exact absurd hch (by decide)
          · rcases List.mem_cons.mp hcs with hceq | hcs2
            · subst hceq; decide
            · rcases List.mem_cons.mp hcs2 with hceq | hcv
              · subst hceq; decide
              · exact fun hceq => hv (hceq ▸ hcv)
        have htakeX : l.takeWhile (fun c => c != '\n') = n ++ (':' :: ' ' :: v) := by
          rw [hl, fieldLineThen_flat]
          exact (takeWhile_dropWhile_append _ _ _ hpre
            (fun c hc => by simp at hc; subst hc; simp)).1
        cases hline with
        | inl hbody =>
          obtain ⟨body, hb, hbn⟩ := hbody
          have htakeB : l.takeWhile (fun c => c != '\n') = body := by
            have hbn' : ∀ c ∈ body, (fun c => c != '\n') c = true := by
              intro c hc
              simp only [bne_iff_ne, ne_eq, decide_eq_true_eq]
              exact fun hceq => hbn (hceq ▸ hc)
            rw [hb]
            exact (takeWhile_dropWhile_append _ body ['\n'] hbn'
              (fun c hc => by simp at hc; subst hc; simp)).1
          have hbodyX : body = n ++ (':' :: ' ' :: v) := by rw [← htakeB, htakeX]
          have happ : (n ++ (':' :: ' ' :: v)) ++ ['\n'] =
              (n ++ (':' :: ' ' :: v)) ++ ('\n' :: rest) := by
            rw [← hbodyX, ← hb, hl, fieldLineThen_flat, hbodyX]
          have hrest : rest = [] := by
            have hcancel := List.append_cancel_left happ
            injection hcancel with _ htail
            exact htail.symm
          rw [hl, hrest]
        | inr hnol =>
          exfalso
          apply hnol
          rw [hl, fieldLineThen_flat]
          simp
    · rintro ⟨name, value, hn, hv, rfl⟩
      have hc := parse_line_helper_complete name value [] hn hv
      rw [parse_line, hc]
      simp [Except.isOk, Except.toBool]

/-- Witness for C8: instantiating both parts at a concrete line. -/
theorem c8_witness :
    parse_line "volume: 40\n" = .ok ("volume", "40") ∧
    (parse_line "OKx\n").isOk = false := by
  constructor
  · exact c8_parse_line_characterization.1 "volume".data "40".data
      (by decide) (by decide)
  · by_contra h
    simp only [Bool.not_eq_false] at h
    have hiff := (c8_parse_line_characterization.2 "OKx\n".data
      (Or.inl ⟨"OKx".data, by decide, by decide⟩)).mp h
    obtain ⟨name, value, _, _, heq⟩ := hiff
    -- a line of that shape contains a colon before its newline; "OKx\n" does not
    have hcolon : ':' ∈ "OKx\n".data := by
      rw [heq, fieldLineThen]
      simp
    exact absurd hcolon (by decide)

/-! ## Claim C7 -/

/-- One field line on the wire. -/
def encodeField (p : String × String) : List Char :=
  fieldLineThen p.1.data p.2.data []

/-- A sequence of field lines on the wire. -/
def encodeFields : List (String × String) → List Char
  | [] => []
  | p :: ps => encodeField p ++ encodeFields ps

/-- A field that `read_response` treats as an ordinary accumulated field:
charset-conforming name, newline-free value, not the `binary` marker, and
its wire line is not mistaken for an `OK`/`ACK` terminator. -/
def plainField (p : String × String) : Prop :=
  (∀ c ∈ p.1.data, isFieldNameChar c = true) ∧ '\n' ∉ p.2.data ∧ p.1 ≠ "binary" ∧
    ['O', 'K'].isPrefixOf (encodeField p) = false ∧
    ['A', 'C', 'K'].isPrefixOf (encodeField p) = false

instance (p : String × String) : Decidable (plainField p) := by
  unfold plainField
  infer_instance

theorem readLine_cons {c : Char} (cs : List Char) (h : c ≠ '\n') :
    readLine (c :: cs) = (c :: (readLine cs).1, (readLine cs).2) := by
  simp [readLine, h]

theorem readLine_append (A rest : List Char) (h : '\n' ∉ A) :
    readLine (A ++ '\n' :: rest) = (A ++ ['\n'], rest) := by
  induction A with
  | nil => simp [readLine]
  | cons a as ih =>
    have ha : a ≠ '\n' := fun hx => h (hx ▸ List.mem_cons_self a as)
    have ih' := ih fun hc => h (List.mem_cons_of_mem a hc)
    simp [readLine_cons _ ha, ih']

theorem readExact_append (l r : List Char) :
    readExact l.length (l ++ r) = some (l, r) := by
  induction l with
  | nil => simp [readExact]
  | cons c cs ih => simp [readExact, ih]

theorem encodeField_then (p : String × String) (s : List Char) :
    encodeField p ++ s = (p.1.data ++ (':' :: ' ' :: p.2.data)) ++ ('\n' :: s) := by
  simp [encodeField, fieldLineThen]

theorem encodeField_eq (p : String × String) :
    (p.1.data ++ (':' :: ' ' :: p.2.data)) ++ ['\n'] = encodeField p := by
  simp [encodeField, fieldLineThen]

theorem encodeFields_length_ge (fs : List (String × String)) :
    fs.length ≤ (encodeFields fs).length := by
  induction fs with
  | nil => simp [encodeFields]
  | cons p ps ih =>
    have : 1 ≤ (encodeField p).length := by
      simp only [encodeField, fieldLineThen, List.length_append, List.length_cons]
      omega
    simp only [encodeFields, List.length_append, List.length_cons]
    omega

/-- A run of plain field lines is consumed by the framing loop, each field
accumulated in order, one unit of fuel per line. -/
theorem readRespGo_encodeFields (fs : List (String × String)) :
    ∀ (acc : List (String × String)) (fuel : Nat) (rest : List Char),
    (∀ p ∈ fs, plainField p) → fuel ≥ fs.length + 1 →
    readRespGo fuel (encodeFields fs ++ rest) acc =
      readRespGo (fuel - fs.length) rest (acc ++ fs) := by
  induction fs with
  | nil => intro acc fuel rest _ _; simp [encodeFields]
  | cons p ps ih =>
    intro acc fuel rest hp hf
    obtain ⟨hn, hv, hnb, hok, hack⟩ := hp p (List.mem_cons_self p ps)
    have hA : '\n' ∉ p.1.data ++ (':' :: ' ' :: p.2.data) := by
      intro hmem
      rcases List.mem_append.mp hmem with hc | hc
      · have := hn _ hc
        exact absurd this (by decide)
      · rcases List.mem_cons.mp hc with hc2 | hc2
        · exact absurd hc2.symm (by decide)
        · rcases List.mem_cons.mp hc2 with hc3 | hc3
          · exact absurd hc3.symm (by decide)
          · exact hv hc3
    cases fuel with
    | zero => omega
    | succ f =>
      have hstream : encodeFields (p :: ps) ++ rest =
          (p.1.data ++ (':' :: ' ' :: p.2.data)) ++
            ('\n' :: (encodeFields ps ++ rest)) := by
        simp [encodeFields, encodeField, fieldLineThen]
      rw [hstream]
      have hrl := readLine_append (p.1.data ++ (':' :: ' ' :: p.2.data))
        (encodeFields ps ++ rest) hA
      have hpl : parse_line ⟨encodeField p⟩ = .ok (p.1, p.2) := by
        have hc := parse_line_helper_complete p.1.data p.2.data [] hn hv
        rw [parse_line]
        rw [show (String.mk (encodeField p)).data = fieldLineThen p.1.data p.2.data []
          from rfl]
        rw [hc]
      have hf' : f ≥ ps.length + 1 := by
        simp only [List.length_cons] at hf
        omega
      simp only [readRespGo, hrl, encodeField_eq]
      simp only [hok, hack, Bool.false_eq_true, if_false, hpl]
      simp only [if_neg hnb]
      rw [ih (acc ++ [(p.1, p.2)]) f rest
        (fun q hq => hp q (List.mem_cons_of_mem p hq)) hf']
      simp [List.append_assoc]

/-- The framing loop terminates successfully at a line starting `OK`. -/
theorem readRespGo_ok (f : Nat) (tail : List Char) (acc : List (String × String)) :
    readRespGo (f + 1) ('O' :: 'K' :: tail) acc = .ok ⟨acc, none⟩ := by
  have h1 := readLine_cons ('K' :: tail) (show 'O' ≠ '\n' by decide)
  have h2 := readLine_cons tail (show 'K' ≠ '\n' by decide)
  simp only [readRespGo, h1, h2]
  simp [List.isPrefixOf]

/-- A `binary: <s>` line followed by the declared number of raw bytes, the
payload-terminating byte and a line starting `OK`: the loop reads the
payload and terminates with it. -/
theorem readRespGo_binary (f : Nat) (acc : List (String × String)) (s : String)
    (n : Nat) (payload okTail : List Char)
    (hs : '\n' ∉ s.data) (hpar : parseU64 s.data = some n) (hlen : payload.length = n) :
    readRespGo (f + 1)
      (encodeField ("binary", s) ++ (payload ++ ('\n' :: ('O' :: 'K' :: okTail)))) acc =
      .ok ⟨acc ++ [("binary", s)], some payload⟩ := by
  have hA : '\n' ∉ "binary".data ++ (':' :: ' ' :: s.data) := by
    intro hmem
    rcases List.mem_append.mp hmem with hc | hc
    · exact absurd hc (by decide)
    · rcases List.mem_cons.mp hc with hc2 | hc2
      · exact absurd hc2.symm (by decide)
      · rcases List.mem_cons.mp hc2 with hc3 | hc3
        · exact absurd hc3.symm (by decide)
        · exact hs hc3
  have hstream : encodeField ("binary", s) ++ (payload ++ ('\n' :: ('O' :: 'K' :: okTail))) =
      ("binary".data ++ (':' :: ' ' :: s.data)) ++
        ('\n' :: (payload ++ ('\n' :: ('O' :: 'K' :: okTail)))) := by
    simp [encodeField, fieldLineThen]
  have hrl := readLine_append ("binary".data ++ (':' :: ' ' :: s.data))
    (payload ++ ('\n' :: ('O' :: 'K' :: okTail))) hA
  have hpl3 : parse_line ⟨'b' :: 'i' :: 'n' :: 'a' :: 'r' :: 'y' :: ':' :: ' ' :: (s.data ++ ['\n'])⟩ =
      .ok ("binary", s) := by
    have hc := parse_line_helper_complete "binary".data s.data [] (by decide) hs
    rw [parse_line]
    rw [show (⟨'b' :: 'i' :: 'n' :: 'a' :: 'r' :: 'y' :: ':' :: ' ' :: (s.data ++ ['\n'])⟩ : String).data =
      fieldLineThen "binary".data s.data [] from by simp [fieldLineThen]]
    rw [hc]
  rw [hstream]
  simp only [readRespGo, hrl]
  simp [List.isPrefixOf, hpl3, hpar, ← hlen, readExact_append, readLine]

/-- After a binary chunk, a final line not starting `O` is a framing
violation. -/
theorem readRespGo_binary_violation (f : Nat) (acc : List (String × String)) (s : String)
    (n : Nat) (payload tail : List Char) (b : Char)
    (hs : '\n' ∉ s.data) (hpar : parseU64 s.data = some n) (hlen : payload.length = n)
    (hb : b ≠ 'O') :
    readRespGo (f + 1)
      (encodeField ("binary", s) ++ (payload ++ ('\n' :: (b :: tail)))) acc =
      .error (.frameErr "Expecting OK after binary chunk") := by
  have hA : '\n' ∉ "binary".data ++ (':' :: ' ' :: s.data) := by
    intro hmem
    rcases List.mem_append.mp hmem with hc | hc
    · exact absurd hc (by decide)
    · rcases List.mem_cons.mp hc with hc2 | hc2
      · exact absurd hc2.symm (by decide)
      · rcases List.mem_cons.mp hc2 with hc3 | hc3
        · exact absurd hc3.symm (by decide)
        · exact hs hc3
  have hstream : encodeField ("binary", s) ++ (payload ++ ('\n' :: (b :: tail))) =
      ("binary".data ++ (':' :: ' ' :: s.data)) ++
        ('\n' :: (payload ++ ('\n' :: (b :: tail)))) := by
    simp [encodeField, fieldLineThen]
  have hrl := readLine_append ("binary".data ++ (':' :: ' ' :: s.data))
    (payload ++ ('\n' :: (b :: tail))) hA
  have hpl3 : parse_line ⟨'b' :: 'i' :: 'n' :: 'a' :: 'r' :: 'y' :: ':' :: ' ' :: (s.data ++ ['\n'])⟩ =
      .ok ("binary", s) := by
    have hc := parse_line_helper_complete "binary".data s.data [] (by decide) hs
    rw [parse_line]
    rw [show (⟨'b' :: 'i' :: 'n' :: 'a' :: 'r' :: 'y' :: ':' :: ' ' :: (s.data ++ ['\n'])⟩ : String).data =
      fieldLineThen "binary".data s.data [] from by simp [fieldLineThen]]
    rw [hc]
  have hObf : ('O' == b) = false := by
    simp [beq_iff_eq]
    exact fun hx => hb hx.symm
  rw [hstream]
  simp only [readRespGo, hrl]
  by_cases hbn : b = '\n'
  · subst hbn
    simp [List.isPrefixOf, hpl3, hpar, ← hlen, readExact_append, readLine]
  · have h1 := readLine_cons tail hbn
    simp [List.isPrefixOf, hpl3, hpar, ← hlen, readExact_append, h1, hObf]

/-- Does a framing result carry a successfully parsed `MpdError` (the
`StructuredError` failure of the spec)? -/
def isStructuredErr : Except ReadErr MpdResponse → Bool
  | .error (.mpdErr _) => true
  | _ => false

/-- Claim C7 amended: Response framing: (1) a run of plain field lines
terminated by a line starting `OK` yields exactly those fields in order,
no binary payload, no error; (2) a stream whose first line starts with
`ACK` yields a failure; (3) a `binary` field with declared length `n`
consumes exactly `n` raw payload characters plus one terminator byte and
requires a final line starting `OK`, terminating the response with that
payload; (4) any other final line after the payload is a framing
violation. -/
theorem c7_read_response_framing :
    (∀ (fs : List (String × String)) (tail : List Char),
      (∀ p ∈ fs, plainField p) →
      readResponse (encodeFields fs ++ ('O' :: 'K' :: tail)) = .ok ⟨fs, none⟩) ∧
    (∀ rest : List Char, (readResponse ('A' :: 'C' :: 'K' :: rest)).isOk = false) ∧
    (∀ (s : String) (n : Nat) (payload okTail : List Char),
      '\n' ∉ s.data → parseU64 s.data = some n → payload.length = n →
      readResponse (encodeField ("binary", s) ++ (payload ++ ('\n' :: ('O' :: 'K' :: okTail)))) =
        .ok ⟨[("binary", s)], some payload⟩) ∧
    (∀ (s : String) (n : Nat) (payload tail : List Char) (b : Char),
      '\n' ∉ s.data → parseU64 s.data = some n → payload.length = n → b ≠ 'O' →
      readResponse (encodeField ("binary", s) ++ (payload ++ ('\n' :: (b :: tail)))) =
        .error (.frameErr "Expecting OK after binary chunk")) := by
  refine ⟨?_, ?_, ?_, ?_⟩
  · intro fs tail hp
    rw [readResponse]
    have hlen1 : fs.length + 1 ≤ (encodeFields fs ++ ('O' :: 'K' :: tail)).length + 1 := by
      have := encodeFields_length_ge fs
      simp only [List.length_append]
      omega
    rw [readRespGo_encodeFields fs [] _ _ hp hlen1]
    have hfpos : ∃ f, (encodeFields fs ++ ('O' :: 'K' :: tail)).length + 1 - fs.length = f + 1 := by
      have := encodeFields_length_ge fs
      refine ⟨(encodeFields fs ++ ('O' :: 'K' :: tail)).length - fs.length, ?_⟩
      simp only [List.length_append]
      omega
    obtain ⟨f, hf⟩ := hfpos
    rw [hf, readRespGo_ok]
    simp
  · intro rest
    rw [readResponse]
    have h1 := readLine_cons ('C' :: 'K' :: rest) (show 'A' ≠ '\n' by decide)
    have h2 := readLine_cons ('K' :: rest) (show 'C' ≠ '\n' by decide)
    have h3 := readLine_cons rest (show 'K' ≠ '\n' by decide)
    simp only [List.length_cons, readRespGo, h1, h2, h3]
    cases hpe : parse_error_line ⟨'A' :: 'C' :: 'K' :: (readLine rest).1⟩ <;>
      simp [List.isPrefixOf, hpe, Except.isOk, Except.toBool]
  · intro s n payload okTail hs hpar hplen
    rw [readResponse]
    have := readRespGo_binary
      (encodeField ("binary", s) ++ (payload ++ ('\n' :: ('O' :: 'K' :: okTail)))).length
      [] s n payload okTail hs hpar hplen
    simpa using this
  · intro s n payload tail b hs hpar hplen hb
    rw [readResponse]
    exact readRespGo_binary_violation
      (encodeField ("binary", s) ++ (payload ++ ('\n' :: (b :: tail)))).length
      [] s n payload tail b hs hpar hplen hb

/-- Counterexample to C7 as stated: on a well-formed ACK line the failure
is a line-parse error, not a `StructuredError` — `parse_error_line`
cannot parse the standard ACK format (see C1). -/
theorem c7_counterexample :
    (readResponse "ACK [2@0] {play} bad\n".data).isOk = false ∧
    isStructuredErr (readResponse "ACK [2@0] {play} bad\n".data) = false := by
  constructor
  · decide
  · decide

/-- Witness for C7 at concrete streams: two plain fields then `OK`; an
ACK stream; a 4-byte binary payload; a violated final line. -/
theorem c7_witness :
    readResponse (encodeFields [("field", "value"), ("fieldtwo", "valuetwo")] ++
        ('O' :: 'K' :: ['\n'])) = .ok ⟨[("field", "value"), ("fieldtwo", "valuetwo")], none⟩ ∧
    (readResponse ('A' :: 'C' :: 'K' :: " [2@0] {play} x\n".data)).isOk = false ∧
    readResponse (encodeField ("binary", "4") ++ ("abcd".data ++ ('\n' :: ('O' :: 'K' :: ['\n'])))) =
      .ok ⟨[("binary", "4")], some "abcd".data⟩ ∧
    readResponse (encodeField ("binary", "1") ++ (['z'] ++ ('\n' :: ('X' :: "X\n".data)))) =
      .error (.frameErr "Expecting OK after binary chunk") := by
  refine ⟨?_, ?_, ?_, ?_⟩
  · exact c7_read_response_framing.1 [("field", "value"), ("fieldtwo", "valuetwo")] ['\n']
      (by decide)
  · exact c7_read_response_framing.2.1 " [2@0] {play} x\n".data
  · exact c7_read_response_framing.2.2.1 "4" 4 "abcd".data ['\n']
      (by decide) (by decide) (by decide)
  · exact c7_read_response_framing.2.2.2 "1" 1 ['z'] "X\n".data 'X'
      (by decide) (by decide) (by decide) (by decide)

/-! ## Claim C2 -/

/-- The event sent by an action, if any. -/
def extractEmit : Act → Option PlayerStateChange
  | .emit e => some e
  | _ => none

theorem sameKind_self (s : MpdPlaybackState) : s.sameKind s = true := by
  cases s <;> rfl

theorem filterMap_extractEmit_map (evs : List PlayerStateChange) :
    (evs.map Act.emit).filterMap extractEmit = evs := by
  induction evs with
  | nil => rfl
  | cons e es ih => simp [List.filterMap_cons, extractEmit, ih]

theorem filterMap_extractEmit_comp (evs : List PlayerStateChange) :
    List.filterMap (extractEmit ∘ Act.emit) evs = evs := by
  induction evs with
  | nil => rfl
  | cons e es ih => simp [List.filterMap_cons, extractEmit, Function.comp, ih]

theorem filterMap_extractEmit_publish (old new : MpdState) :
    (publishActs old new).filterMap extractEmit = diffEvents old new := by
  simp [publishActs, List.filterMap_cons, extractEmit, List.filterMap_map,
    filterMap_extractEmit_comp]

/-- The publication tail emits exactly the comparison events of the state
it publishes, and emits nothing when it fails. -/
theorem updateStatusTail_filterMap (env : UpdateEnv) (old : MpdState)
    (acts : List Act) (new : MpdState)
    (hacts : acts.filterMap extractEmit = []) :
    (updateStatusTail env old acts new).1.filterMap extractEmit =
      (match (updateStatusTail env old acts new).2 with
      | .ok st => diffEvents old st
      | .error _ => []) := by
  unfold updateStatusTail
  split
  · split
    · split
      · split
        · split
          · simp [List.filterMap_append, hacts, extractEmit]
          · simp [List.filterMap_append, hacts, extractEmit,
              filterMap_extractEmit_publish]
        · simp [List.filterMap_append, hacts, extractEmit,
            filterMap_extractEmit_publish]
      · simp [List.filterMap_append, hacts, extractEmit,
          filterMap_extractEmit_publish]
    · simp [List.filterMap_append, hacts, extractEmit,
        filterMap_extractEmit_publish]
  · split
    · simp [List.filterMap_append, hacts, filterMap_extractEmit_publish]
    · split
      · split
        · split
          · simp [List.filterMap_append, hacts, extractEmit]
          · simp [List.filterMap_append, hacts, extractEmit,
              filterMap_extractEmit_publish]
        · simp [List.filterMap_append, hacts, filterMap_extractEmit_publish]
      · simp [List.filterMap_append, hacts, filterMap_extractEmit_publish]

/-- Claim C2: One status refresh emits exactly one event per differing
compared field — playback kind, loop mode, shuffle flag, song identity,
next-song identity, volume — and none for unchanged fields: the count of
each event is 1 when the corresponding field differs and 0 otherwise
(`Tracklist` is never emitted by a refresh); the events a successful
`update_status` run emits are exactly the comparison events of the
published snapshot, and a failed run emits none; two snapshots differing
only in volume produce exactly `[Volume]`; identical snapshots produce no
events. -/
theorem c2_update_status_diff :
    (∀ old new : MpdState,
      List.count .Playback (diffEvents old new) =
        (if !(new.playback_state.sameKind old.playback_state) then 1 else 0) ∧
      List.count .Loop (diffEvents old new) =
        (if new.loop_state ≠ old.loop_state then 1 else 0) ∧
      List.count .Shuffle (diffEvents old new) =
        (if new.random ≠ old.random then 1 else 0) ∧
      List.count .Song (diffEvents old new) =
        (if new.song ≠ old.song then 1 else 0) ∧
      List.count .NextSong (diffEvents old new) =
        (if new.next_song ≠ old.next_song then 1 else 0) ∧
      List.count .Volume (diffEvents old new) =
        (if new.volume ≠ old.volume then 1 else 0) ∧
      List.count .Tracklist (diffEvents old new) = 0) ∧
    (∀ (env : UpdateEnv) (old : MpdState),
      (updateStatus env old).1.filterMap extractEmit =
        (match (updateStatus env old).2 with
        | .ok st => diffEvents old st
        | .error _ => [])) ∧
    (∀ (old : MpdState) (v : Nat), v ≠ old.volume →
      diffEvents old { old with volume := v } = [.Volume]) ∧
    (∀ s : MpdState, diffEvents s s = []) := by
  refine ⟨?_, ?_, ?_, ?_⟩
  · intro old new
    refine ⟨?_, ?_, ?_, ?_, ?_, ?_, ?_⟩ <;>
      · simp only [diffEvents]
        split_ifs <;> decide
  · intro env old
    unfold updateStatus
    split
    · rfl
    · split
      · split
        · rfl
        · split
          · rfl
          · exact updateStatusTail_filterMap env old _ _ (by rfl)
      · split
        · rfl
        · exact updateStatusTail_filterMap env old _ _ (by rfl)
  · intro old v h
    simp [diffEvents, sameKind_self, h]
  · intro s
    simp [diffEvents, sameKind_self]

/-- A concrete snapshot used for instantiating the theorems. -/
def sampleState : MpdState :=
  { playback_state := .Stopped, loop_state := .None, random := false, volume := 50,
    song := some (1, 1), next_song := none, playlistlength := 3,
    current_song := none, album_art := some "art1" }

/-- Witness for C2: a volume-only change at a concrete snapshot emits
exactly one `Volume` event. -/
theorem c2_witness :
    diffEvents sampleState { sampleState with volume := 30 } = [.Volume] :=
  c2_update_status_diff.2.2.1 sampleState 30 (by decide)

/-! ## Claim C6 -/

/-- In a list with a unique marked element, any decomposition at that
element has the same suffix. -/
theorem append_cons_unique {α} {x : α} :
    ∀ (a b l1 l2 : List α), a ++ x :: b = l1 ++ x :: l2 → x ∉ a → x ∉ b → l2 = b := by
  intro a
  induction a with
  | nil =>
    intro b l1 l2 h hxa hxb
    cases l1 with
    | nil =>
      simp only [List.nil_append] at h
      injection h with _ h2
      exact h2.symm
    | cons y l1t =>
      simp only [List.nil_append, List.cons_append] at h
      injection h with h1 h2
      exfalso
      apply hxb
      rw [h2]
      simp
  | cons c at_ ih =>
    intro b l1 l2 h hxa hxb
    cases l1 with
    | nil =>
      simp only [List.cons_append, List.nil_append] at h
      injection h with h1 _
      exact absurd (h1 ▸ List.mem_cons_self c at_) hxa
    | cons y l1t =>
      simp only [List.cons_append] at h
      injection h with _ h2
      exact ih b l1t l2 h2 (fun hm => hxa (List.mem_cons_of_mem c hm)) hxb

/-- Model of `swap` never appears among emitted events. -/
theorem swap_not_mem_emits (evs : List PlayerStateChange) :
    Act.swap ∉ evs.map Act.emit := by
  intro hmem
  obtain ⟨e, _, habs⟩ := List.mem_map.mp hmem
  cases habs

/-- Decompositions of `acts0 ++ publishActs old new` at `swap` have the
emitted events as suffix, which contains no file deletion. -/
theorem publish_decomp (acts0 : List Act) (old new : MpdState)
    (h0 : Act.swap ∉ acts0) (l1 l2 : List Act)
    (h : acts0 ++ publishActs old new = l1 ++ .swap :: l2) :
    Act.removeFile ∉ l2 := by
  have h' : acts0 ++ .swap :: ((diffEvents old new).map Act.emit) = l1 ++ .swap :: l2 := by
    simpa [publishActs] using h
  have hl2 : l2 = (diffEvents old new).map Act.emit :=
    append_cons_unique acts0 _ l1 l2 h' h0 (swap_not_mem_emits _)
  rw [hl2]
  intro hmem
  obtain ⟨e, _, habs⟩ := List.mem_map.mp hmem
  cases habs

theorem no_swap_no_decomp {t : List Act} (h : Act.swap ∉ t) (l1 l2 : List Act)
    (heq : t = l1 ++ .swap :: l2) : Act.removeFile ∉ l2 := by
  exfalso
  apply h
  rw [heq]
  simp

/-- Whatever the publication tail does, no file deletion follows the
snapshot swap in its trace. -/
theorem updateStatusTail_remove_before_swap (env : UpdateEnv) (old : MpdState)
    (acts : List Act) (new : MpdState) (hs : Act.swap ∉ acts) :
    ∀ l1 l2, (updateStatusTail env old acts new).1 = l1 ++ .swap :: l2 →
      Act.removeFile ∉ l2 := by
  intro l1 l2 h
  have hs2 : Act.swap ∉ acts ++ [Act.queryArt, Act.removeFile] := by
    intro hm
    rcases List.mem_append.mp hm with hm | hm
    · exact hs hm
    · simp at hm
  have hs3 : Act.swap ∉ acts ++ [Act.queryArt] := by
    intro hm
    rcases List.mem_append.mp hm with hm | hm
    · exact hs hm
    · simp at hm
  have hs4 : Act.swap ∉ acts ++ [Act.removeFile] := by
    intro hm
    rcases List.mem_append.mp hm with hm | hm
    · exact hs hm
    · simp at hm
  unfold updateStatusTail at h
  split at h
  · split at h
    · split at h
      · split at h
        · split at h
          · exact no_swap_no_decomp hs2 l1 l2 (by simpa only [] using h)
          · exact publish_decomp _ _ _ hs2 l1 l2
              (by simpa only [← List.append_assoc] using h)
        · exact publish_decomp _ _ _ hs3 l1 l2
            (by simpa only [← List.append_assoc] using h)
      · exact publish_decomp _ _ _ hs3 l1 l2
          (by simpa only [← List.append_assoc] using h)
    · exact publish_decomp _ _ _ hs3 l1 l2
        (by simpa only [← List.append_assoc] using h)
  · split at h
    · exact publish_decomp _ _ _ hs l1 l2 (by simpa only [] using h)
    · split at h
      · split at h
        · split at h
          · exact no_swap_no_decomp hs4 l1 l2 (by simpa only [] using h)
          · exact publish_decomp _ _ _ hs4 l1 l2
              (by simpa only [← List.append_assoc] using h)
        · exact publish_decomp _ _ _ hs l1 l2 (by simpa only [] using h)
      · exact publish_decomp _ _ _ hs l1 l2 (by simpa only [] using h)

/-- Environment of the concrete refresh used below: the current song
changed from (1,1) to (2,7), art download succeeds, the previous art file
exists. -/
def c6Env : UpdateEnv :=
  { statusResp := .ok ⟨[("state", "stop"), ("repeat", "0"), ("single", "0"),
      ("random", "0"), ("volume", "50"), ("song", "2"), ("songid", "7"),
      ("playlistlength", "5")], none⟩
    currentsongResp := .ok ⟨[], none⟩
    artResult := .ok "art2"
    oldArtIsFile := true
    removeResult := .ok () }

/-- Counterexample to C6 as stated: in a refresh whose song identity
changed, the previous art file is deleted (index 3) strictly before the
snapshot swap (index 4). -/
theorem c6_counterexample :
    (updateStatus c6Env sampleState).1 =
      [.queryStatus, .queryCurrentsong, .queryArt, .removeFile, .swap, .emit .Song] ∧
    (updateStatus c6Env sampleState).1.indexOf .removeFile <
      (updateStatus c6Env sampleState).1.indexOf .swap := by
  constructor
  · decide
  · decide

/-- Claim C6 amended: In every refresh the previous art file is deleted
(when it is deleted at all) strictly before the snapshot swap: no
deletion ever follows the swap in the trace of `update_status`. -/
theorem c6_remove_never_after_swap (env : UpdateEnv) (old : MpdState) :
    ∀ l1 l2, (updateStatus env old).1 = l1 ++ .swap :: l2 →
      Act.removeFile ∉ l2 := by
  intro l1 l2 h
  unfold updateStatus at h
  split at h
  · exact no_swap_no_decomp (by simp) l1 l2 h
  · split at h
    · split at h
      · exact no_swap_no_decomp (by simp) l1 l2 h
      · split at h
        · exact no_swap_no_decomp (by simp) l1 l2 h
        · exact updateStatusTail_remove_before_swap env old _ _ (by decide) l1 l2 h
    · split at h
      · exact no_swap_no_decomp (by simp) l1 l2 h
      · exact updateStatusTail_remove_before_swap env old _ _ (by decide) l1 l2 h

/-- Witness for C6 (amended) at the concrete refresh: the suffix after the
swap holds no deletion. -/
theorem c6_witness :
    Act.removeFile ∉ [Act.emit PlayerStateChange.Song] :=
  c6_remove_never_after_swap c6Env sampleState
    [.queryStatus, .queryCurrentsong, .queryArt, .removeFile]
    [.emit .Song] (by decide)

/-! ## Claim C3 -/

/-- The fields whose absence `MpdState::from` actually rejects: the five
unconditional `get_or_complain` targets (including `volume`, in **every**
state), plus `elapsed`/`duration` when the state is `play`/`pause`. -/
def requiredMissing (status : FieldMap) : Prop :=
  (status "state").isNone = true ∨ (status "repeat").isNone = true ∨
  (status "single").isNone = true ∨ (status "random").isNone = true ∨
  (status "volume").isNone = true ∨
  ((gocVal status "state" = "play" ∨ gocVal status "state" = "pause") ∧
    ((status "elapsed").isNone = true ∨ (status "duration").isNone = true))

/-- A present value is `0`/`1` (for the boolean fields). -/
def valIs01 : Option (List String) → Bool
  | none => true
  | some l => firstVal l = "0" || firstVal l = "1"

/-- A present value parses as `u8`. -/
def valU8 : Option (List String) → Bool
  | none => true
  | some l => (parseU8 (firstVal l).data).isSome

/-- A present value parses as `f64` and is accepted (not panicked on) by
`Duration::from_secs_f64`: non-negative and below `2^64` seconds. -/
def valF64 : Option (List String) → Bool
  | none => true
  | some l =>
    match parseF64 (firstVal l).data with
    | some v => (durationFromSecsF64 v).isSome
    | none => false

/-- A jointly present id pair parses as `u64`s. -/
def pairU64 : Option (List String) → Option (List String) → Bool
  | some l, some l2 =>
    (parseU64 (firstVal l).data).isSome && (parseU64 (firstVal l2).data).isSome
  | _, _ => true

/-- All present values that `MpdState::from` parses are well-formed. -/
def wellFormedStatus (status : FieldMap) : Prop :=
  valIs01 (status "repeat") = true ∧ valIs01 (status "single") = true ∧
  valIs01 (status "random") = true ∧ valU8 (status "volume") = true ∧
  valF64 (status "elapsed") = true ∧ valF64 (status "duration") = true ∧
  pairU64 (status "song") (status "songid") = true ∧
  pairU64 (status "nextsong") (status "nextsongid") = true

theorem gocMiss_nil_iff (status : FieldMap) (k : String) :
    gocMiss status k = [] ↔ (status k).isSome = true := by
  cases h : status k <;> simp [gocMiss, h]

theorem mfCore_ne_nil_of_missing {status : FieldMap}
    (h : (status "state").isNone = true ∨ (status "repeat").isNone = true ∨
      (status "single").isNone = true ∨ (status "random").isNone = true ∨
      (status "volume").isNone = true) :
    mfCore status ≠ [] := by
  intro hnil
  simp only [mfCore, List.append_eq_nil] at hnil
  obtain ⟨⟨⟨⟨h1, h2⟩, h3⟩, h4⟩, h5⟩ := hnil
  rcases h with h | h | h | h | h <;>
    simp_all [gocMiss_nil_iff, Option.isSome_iff_ne_none, Option.isNone_iff_eq_none]

theorem pbResOf_err_of_five {status : FieldMap}
    (h : (status "state").isNone = true ∨ (status "repeat").isNone = true ∨
      (status "single").isNone = true ∨ (status "random").isNone = true ∨
      (status "volume").isNone = true) :
    ∃ e, pbResOf status = .error e := by
  have hcore := mfCore_ne_nil_of_missing h
  unfold pbResOf
  by_cases hplay : gocVal status "state" = "play" ∨ gocVal status "state" = "pause"
  · rw [if_pos hplay]
    rw [if_pos (show mfCore status ++ gocMiss status "elapsed" ++
        gocMiss status "duration" ≠ [] from by
      intro hnil
      simp only [List.append_eq_nil] at hnil
      exact hcore hnil.1.1)]
    exact ⟨_, rfl⟩
  · rw [if_neg hplay, if_pos hcore]
    exact ⟨_, rfl⟩

/-- Part (i): a missing required field always fails construction. -/
theorem mpdStateFrom_isErr_of_missing (status : FieldMap) (md : Option FieldMap)
    (h : requiredMissing status) : (mpdStateFrom status md).isOk = false := by
  have hpb : ∃ e, pbResOf status = .error e := by
    rcases h with h | h | h | h | h | ⟨hpp, hed⟩
    · exact pbResOf_err_of_five (Or.inl h)
    · exact pbResOf_err_of_five (Or.inr (Or.inl h))
    · exact pbResOf_err_of_five (Or.inr (Or.inr (Or.inl h)))
    · exact pbResOf_err_of_five (Or.inr (Or.inr (Or.inr (Or.inl h))))
    · exact pbResOf_err_of_five (Or.inr (Or.inr (Or.inr (Or.inr h))))
    · unfold pbResOf
      rw [if_pos hpp]
      have hne : mfCore status ++ gocMiss status "elapsed" ++
          gocMiss status "duration" ≠ [] := by
        intro hnil
        simp only [List.append_eq_nil] at hnil
        rcases hed with hed | hed <;>
          simp_all [gocMiss_nil_iff, Option.isSome_iff_ne_none, Option.isNone_iff_eq_none]
      rw [if_pos hne]
      exact ⟨_, rfl⟩
  obtain ⟨e, he⟩ := hpb
  simp [mpdStateFrom, he, Except.isOk, Except.toBool]

/-- Part (ii) core: with well-formed values and no required field
missing, construction succeeds. -/
theorem mpdStateFrom_isOk (status : FieldMap) (md : Option FieldMap)
    (hwf : wellFormedStatus status) (hmiss : ¬ requiredMissing status) :
    (mpdStateFrom status md).isOk = true := by
  obtain ⟨hwr, hwsi, hwrand, hwv, hwe, hwd, hwsong, hwnext⟩ := hwf
  unfold requiredMissing at hmiss
  push_neg at hmiss
  obtain ⟨h1, h2, h3, h4, h5, h6⟩ := hmiss
  cases hst : status "state" with
  | none => rw [hst] at h1; simp at h1
  | some ls =>
  cases hr : status "repeat" with
  | none => rw [hr] at h2; simp at h2
  | some lr =>
  cases hsi : status "single" with
  | none => rw [hsi] at h3; simp at h3
  | some lsi =>
  cases hra : status "random" with
  | none => rw [hra] at h4; simp at h4
  | some lra =>
  cases hv : status "volume" with
  | none => rw [hv] at h5; simp at h5
  | some lv =>
  have hmf : mfCore status = [] := by
    simp [mfCore, gocMiss, hst, hr, hsi, hra, hv]
  have hpb : ∃ pb, pbResOf status = .ok pb := by
    unfold pbResOf
    by_cases hplay : gocVal status "state" = "play" ∨ gocVal status "state" = "pause"
    · have hednotmiss := h6 hplay
      push_neg at hednotmiss
      obtain ⟨he6, hd6⟩ := hednotmiss
      cases hel : status "elapsed" with
      | none => rw [hel] at he6; simp at he6
      | some le =>
      cases hdu : status "duration" with
      | none => rw [hdu] at hd6; simp at hd6
      | some ld =>
      rw [if_pos hplay]
      rw [if_neg (by simp [hmf, gocMiss, hel, hdu])]
      rw [hel] at hwe
      rw [hdu] at hwd
      simp only [valF64] at hwe hwd
      have hge : gocVal status "elapsed" = firstVal le := by simp [gocVal, hel]
      have hgd : gocVal status "duration" = firstVal ld := by simp [gocVal, hdu]
      cases hev : parseF64 (firstVal le).data with
      | none => rw [hev] at hwe; simp at hwe
      | some ev =>
      cases hdv : parseF64 (firstVal ld).data with
      | none => rw [hdv] at hwd; simp at hwd
      | some dv =>
      rw [hev] at hwe
      rw [hdv] at hwd
      simp only at hwe hwd
      obtain ⟨ev2, hev2⟩ := Option.isSome_iff_exists.mp hwe
      obtain ⟨dv2, hdv2⟩ := Option.isSome_iff_exists.mp hwd
      exact ⟨if gocVal status "state" = "play" then MpdPlaybackState.Playing ⟨ev2, dv2⟩
          else MpdPlaybackState.Paused ⟨ev2, dv2⟩,
        by simp only [hge, hgd, hev, hdv, hev2, hdv2]⟩
    · rw [if_neg hplay, if_neg (by simp [hmf])]
      exact ⟨_, rfl⟩
  obtain ⟨pb, hpb⟩ := hpb
  have hsong : ∃ v, songPairOf status "song" "songid" = .ok v := by
    unfold songPairOf
    cases hso : status "song" with
    | none => cases status "songid" <;> exact ⟨_, rfl⟩
    | some lso =>
      cases hsid : status "songid" with
      | none => exact ⟨_, rfl⟩
      | some lid =>
        rw [hso, hsid] at hwsong
        simp only [pairU64, Bool.and_eq_true] at hwsong
        obtain ⟨a, ha⟩ := Option.isSome_iff_exists.mp hwsong.1
        obtain ⟨b, hb⟩ := Option.isSome_iff_exists.mp hwsong.2
        exact ⟨some (a, b), by simp [ha, hb]⟩
  obtain ⟨sv, hsong⟩ := hsong
  have hnext : ∃ v, songPairOf status "nextsong" "nextsongid" = .ok v := by
    unfold songPairOf
    cases hso : status "nextsong" with
    | none => cases status "nextsongid" <;> exact ⟨_, rfl⟩
    | some lso =>
      cases hsid : status "nextsongid" with
      | none => exact ⟨_, rfl⟩
      | some lid =>
        rw [hso, hsid] at hwnext
        simp only [pairU64, Bool.and_eq_true] at hwnext
        obtain ⟨a, ha⟩ := Option.isSome_iff_exists.mp hwnext.1
        obtain ⟨b, hb⟩ := Option.isSome_iff_exists.mp hwnext.2
        exact ⟨some (a, b), by simp [ha, hb]⟩
  obtain ⟨nv, hnext⟩ := hnext
  have hloop : ∃ v, MpdLoopState.from_mpd (gocVal status "repeat") (gocVal status "single") = .ok v := by
    rw [hr] at hwr
    rw [hsi] at hwsi
    simp only [valIs01, Bool.or_eq_true, decide_eq_true_eq] at hwr hwsi
    rw [show gocVal status "repeat" = firstVal lr from by simp [gocVal, hr],
      show gocVal status "single" = firstVal lsi from by simp [gocVal, hsi]]
    unfold MpdLoopState.from_mpd
    rcases hwr with hwr | hwr <;> rcases hwsi with hwsi | hwsi <;>
      rw [hwr, hwsi] <;> exact ⟨_, rfl⟩
  obtain ⟨lv2, hloop⟩ := hloop
  have hrand : ∃ v, mpd_num_to_bool (gocVal status "random") = .ok v := by
    rw [hra] at hwrand
    simp only [valIs01, Bool.or_eq_true, decide_eq_true_eq] at hwrand
    rw [show gocVal status "random" = firstVal lra from by simp [gocVal, hra]]
    rcases hwrand with hw | hw <;> rw [hw] <;> exact ⟨_, rfl⟩
  obtain ⟨rv, hrand⟩ := hrand
  have hvol : ∃ v, parseU8 (gocVal status "volume").data = some v := by
    rw [hv] at hwv
    simp only [valU8] at hwv
    rw [show gocVal status "volume" = firstVal lv from by simp [gocVal, hv]]
    exact Option.isSome_iff_exists.mp hwv
  obtain ⟨vv, hvol⟩ := hvol
  unfold mpdStateFrom
  rw [hpb, hsong, hnext, hloop, hrand, hvol]
  rfl

/-- Either the publication tail succeeds, or it appends only
query/deletion actions: no swap, no event. -/
theorem updateStatusTail_shape (env : UpdateEnv) (old : MpdState)
    (acts : List Act) (new : MpdState) :
    ((updateStatusTail env old acts new).2.isOk = true) ∨
    (∃ mid, (updateStatusTail env old acts new).1 = acts ++ mid ∧
      Act.swap ∉ mid ∧ ∀ e, Act.emit e ∉ mid) := by
  unfold updateStatusTail
  split
  · split
    · split
      · split
        · split
          · exact Or.inr ⟨[Act.queryArt, Act.removeFile], by simp, by simp, by simp⟩
          · exact Or.inl rfl
        · exact Or.inl rfl
      · exact Or.inl rfl
    · exact Or.inl rfl
  · split
    · exact Or.inl rfl
    · split
      · split
        · split
          · exact Or.inr ⟨[Act.removeFile], by simp, by simp, by simp⟩
          · exact Or.inl rfl
        · exact Or.inl rfl
      · exact Or.inl rfl

/-- Either a refresh succeeds, or its trace holds no snapshot swap and no
emitted event. -/
theorem updateStatus_shape (env : UpdateEnv) (old : MpdState) :
    ((updateStatus env old).2.isOk = true) ∨
    (Act.swap ∉ (updateStatus env old).1 ∧
      ∀ e, Act.emit e ∉ (updateStatus env old).1) := by
  unfold updateStatus
  split
  · exact Or.inr ⟨by simp, fun e => by simp⟩
  · split
    · split
      · exact Or.inr ⟨by simp, fun e => by simp⟩
      · split
        · exact Or.inr ⟨by simp, fun e => by simp⟩
        · rename_i new _
          rcases updateStatusTail_shape env old [.queryStatus, .queryCurrentsong] new with
            hok | ⟨mid, hmid, hs, he⟩
          · exact Or.inl hok
          · refine Or.inr ⟨?_, ?_⟩
            · rw [hmid]
              intro hm
              rcases List.mem_append.mp hm with hm | hm
              · simp at hm
              · exact hs hm
            · intro e
              rw [hmid]
              intro hm
              rcases List.mem_append.mp hm with hm | hm
              · simp at hm
              · exact he e hm
    · split
      · exact Or.inr ⟨by simp, fun e => by simp⟩
      · rename_i new _
        rcases updateStatusTail_shape env old [.queryStatus] new with
          hok | ⟨mid, hmid, hs, he⟩
        · exact Or.inl hok
        · refine Or.inr ⟨?_, ?_⟩
          · rw [hmid]
            intro hm
            rcases List.mem_append.mp hm with hm | hm
            · simp at hm
            · exact hs hm
          · intro e
            rw [hmid]
            intro hm
            rcases List.mem_append.mp hm with hm | hm
            · simp at hm
            · exact he e hm

/-- The play-state status map with a negative `elapsed`, realizing the
`Duration::from_secs_f64` panic. -/
def c3PanicStatus : FieldMap :=
  fieldMapL [("state", "play"), ("repeat", "0"), ("single", "0"),
    ("random", "0"), ("volume", "50"), ("elapsed", "-1"), ("duration", "0")]

theorem parseF64_neg_one : parseF64 ['-', '1'] = some (-1) := by
  have h1 : digitsToNat ['1'] = 1 := by decide
  have h0 : digitsToNat [] = 0 := by decide
  simp [parseF64, List.takeWhile, List.dropWhile, h1, h0]

theorem durationFromSecsF64_neg_one : durationFromSecsF64 (-1) = none := by
  rw [durationFromSecsF64, if_neg]
  intro h
  exact absurd h.1 (by norm_num)

/-- At `c3PanicStatus` the construction reaches the
`Duration::from_secs_f64` panic. -/
theorem mpdStateFrom_panics_on_negative_elapsed :
    mpdStateFrom c3PanicStatus none = .error durationPanicMsg := by
  have hS : c3PanicStatus "state" = some ["play", "play"] := by decide
  have hR : c3PanicStatus "repeat" = some ["0", "0"] := by decide
  have hSi : c3PanicStatus "single" = some ["0", "0"] := by decide
  have hRa : c3PanicStatus "random" = some ["0", "0"] := by decide
  have hV : c3PanicStatus "volume" = some ["50", "50"] := by decide
  have hE : c3PanicStatus "elapsed" = some ["-1", "-1"] := by decide
  have hD : c3PanicStatus "duration" = some ["0", "0"] := by decide
  have hpb : pbResOf c3PanicStatus = .error durationPanicMsg := by
    rw [pbResOf]
    rw [if_pos (by rw [show gocVal c3PanicStatus "state" = "play" from by
      simp [gocVal, hS, firstVal]]; left; rfl)]
    rw [if_neg (by simp [mfCore, gocMiss, hS, hR, hSi, hRa, hV, hE, hD])]
    rw [show (gocVal c3PanicStatus "elapsed").data = ['-', '1'] from by
      simp [gocVal, hE, firstVal]]
    simp only [parseF64_neg_one, durationFromSecsF64_neg_one]
  rw [mpdStateFrom, hpb]

/-- Claim C3 amended: `MpdState::from` fails whenever one of state,
repeat, single, random, volume (in **every** state, not only
playing/paused) is missing, or — in playing/paused state — elapsed or
duration is missing; when every present value is well-formed (booleans in
{0,1}, volume a `u8`, elapsed/duration decimals accepted by
`Duration::from_secs_f64`, jointly present song ids numeric) these are
exactly the failures; a failed refresh publishes nothing — no snapshot
swap and no event appears in its trace, so the previous snapshot stays in
effect; and a present but out-of-range duration value (here `elapsed:
-1` while playing) does not construct: it reaches the
`Duration::from_secs_f64` panic, modelled by its distinguished marker
outcome. -/
theorem c3_missing_field_characterization :
    (∀ (status : FieldMap) (md : Option FieldMap),
      requiredMissing status → (mpdStateFrom status md).isOk = false) ∧
    (∀ (status : FieldMap) (md : Option FieldMap), wellFormedStatus status →
      ((mpdStateFrom status md).isOk = false ↔ requiredMissing status)) ∧
    (∀ (env : UpdateEnv) (old : MpdState), (updateStatus env old).2.isOk = false →
      Act.swap ∉ (updateStatus env old).1 ∧
        ∀ e, Act.emit e ∉ (updateStatus env old).1) ∧
    mpdStateFrom c3PanicStatus none = .error durationPanicMsg := by
  refine ⟨mpdStateFrom_isErr_of_missing, ?_, ?_,
    mpdStateFrom_panics_on_negative_elapsed⟩
  · intro status md hwf
    constructor
    · intro herr
      by_contra hmiss
      rw [mpdStateFrom_isOk status md hwf hmiss] at herr
      simp at herr
    · exact mpdStateFrom_isErr_of_missing status md
  · intro env old herr
    rcases updateStatus_shape env old with hok | h
    · rw [hok] at herr
      simp at herr
    · exact h

/-- The status map of the counterexample: a stopped state with state,
repeat, single, random present and well-formed but `volume` absent. -/
def c3Status : FieldMap :=
  fieldMapL [("state", "stop"), ("repeat", "0"), ("single", "0"), ("random", "1")]

/-- Counterexample to C3 as stated: the claim lists `volume` as required
only in playing/paused state, so this stopped-state response should
construct successfully — but `MpdState::from` rejects it, because
`volume` is fetched by `get_or_complain` before the state is examined. -/
theorem c3_counterexample :
    (mpdStateFrom c3Status none).isOk = false ∧
    c3Status "volume" = none ∧ c3Status "state" = some ["stop", "stop"] ∧
    c3Status "repeat" = some ["0", "0"] ∧ c3Status "single" = some ["0", "0"] ∧
    c3Status "random" = some ["1", "1"] ∧
    c3Status "elapsed" = none ∧ c3Status "duration" = none := by
  refine ⟨by decide, by decide, by decide, by decide, by decide, by decide,
    by decide, by decide⟩

/-- Witness for C3 (amended), applying part (i) at the concrete map with
`volume` missing. -/
theorem c3_witness : (mpdStateFrom c3Status none).isOk = false :=
  c3_missing_field_characterization.1 c3Status none (by
    right; right; right; right; left; decide)

/-! ## Claims C4, C5, C9 (album-art protocol) -/

/-- An art environment in which neither the embedded picture nor the
folder cover yields any binary data. -/
def c4ArtEnv : ArtEnv :=
  { currentsongResp := .ok ⟨[("file", "a.flac"), ("Id", "7")], none⟩
    readpictureResps := [.ok ⟨[], none⟩]
    albumartResps := [.ok ⟨[], none⟩] }

/-- A refresh environment whose art lookup returned `Ok` with the cache
path (as `update_album_art` does even when no data was found). -/
def c4Env : UpdateEnv :=
  { statusResp := .ok ⟨[("state", "stop"), ("repeat", "0"), ("single", "0"),
      ("random", "0"), ("volume", "50"), ("song", "2"), ("songid", "7"),
      ("playlistlength", "5")], none⟩
    currentsongResp := .ok ⟨[], none⟩
    artResult := .ok "cache/7"
    oldArtIsFile := false
    removeResult := .ok () }

/-- Claim C4: When neither method yields binary data the claim says the
lookup reports absence and `album_art` stays absent. The code instead
returns `Ok(pic_path)` — the path of the freshly created **empty** cache
file — and the refresh then publishes a snapshot with
`album_art = Some(path)`. -/
theorem c4_no_art_reports_success :
    updateAlbumArt c4ArtEnv = .ok "7" [] ∧
    (updateStatus c4Env sampleState).2.map (fun st => st.album_art) =
      .ok (some "cache/7") := by
  constructor
  · decide
  · decide

/-- An art environment whose continuation response (offset 4 of a
declared 8-byte picture) carries no binary chunk. -/
def c5ArtEnv : ArtEnv :=
  { currentsongResp := .ok ⟨[("file", "a.flac"), ("Id", "7")], none⟩
    readpictureResps := [.ok ⟨[("size", "8"), ("binary", "4")], some "abcd".data⟩,
      .ok ⟨[("size", "8")], none⟩]
    albumartResps := [] }

/-- Claim C5: The claim says every step of the download yields an error
value or absence rather than a panic. The continuation step calls
`resp.binary.unwrap()`: a continuation response without a binary chunk
panics instead of producing an error value. -/
theorem c5_continuation_without_binary_panics :
    updateAlbumArt c5ArtEnv =
      .panicked "Option::unwrap on None: continuation response without binary chunk" := by
  decide

/-- Offset-continuation environment delivering the declared 10000 bytes
as three chunks declared 4000/4000/2000. -/
def c9ArtEnv (p1 p2 p3 : List Char) : ArtEnv :=
  { currentsongResp := .ok ⟨[("file", "a.flac"), ("Id", "7")], none⟩
    readpictureResps := [.ok ⟨[("size", "10000"), ("binary", "4000")], some p1⟩,
      .ok ⟨[("size", "10000"), ("binary", "4000")], some p2⟩,
      .ok ⟨[("size", "10000"), ("binary", "2000")], some p3⟩]
    albumartResps := [] }

/-- Environment showing the loop's termination test does not track the
received bytes: total declared 10, first chunk 4 bytes, continuations
deliver only 1 byte each. -/
def c9ShortEnv : ArtEnv :=
  { currentsongResp := .ok ⟨[("file", "a.flac"), ("Id", "7")], none⟩
    readpictureResps := [.ok ⟨[("size", "10"), ("binary", "4")], some "aaaa".data⟩,
      .ok ⟨[("size", "10"), ("binary", "1")], some ['b']⟩,
      .ok ⟨[("size", "10"), ("binary", "1")], some ['c']⟩]
    albumartResps := [] }

/-- Claim C9: In the claim's own scenario (declared 10000, chunks
4000/4000/2000) the file is exactly the three chunks concatenated in
offset order — the loop requests offsets 0, 4000, 8000 and stops when
`first_chunk_size + offset ≥ declared_size`. But the loop reads `size`
and `binary_size` from the **first** response each iteration, so when a
continuation delivers fewer bytes than the first chunk the loop still
stops after the same number of requests and returns `Ok` with fewer
bytes than the declared total: with declared total 10 and received
4+1+1 bytes it terminates with a 6-byte file. -/
theorem c9_offset_continuation :
    (∀ p1 p2 p3 : List Char,
      updateAlbumArt (c9ArtEnv p1 p2 p3) = .ok "7" (p1 ++ p2 ++ p3)) ∧
    updateAlbumArt (c9ArtEnv (List.replicate 4000 'a') (List.replicate 4000 'b')
        (List.replicate 2000 'c')) =
      .ok "7" (List.replicate 4000 'a' ++ List.replicate 4000 'b' ++
        List.replicate 2000 'c') ∧
    (List.replicate 4000 'a' ++ List.replicate 4000 'b' ++
      List.replicate 2000 'c').length = 10000 ∧
    updateAlbumArt c9ShortEnv = .ok "7" "aaaabc".data ∧
    ("aaaabc".data.length = 6 ∧ (6 : Nat) ≠ 10) := by
  have hgen : ∀ p1 p2 p3 : List Char,
      updateAlbumArt (c9ArtEnv p1 p2 p3) = .ok "7" (p1 ++ p2 ++ p3) := by
    intro p1 p2 p3
    have hmk : ∀ (fs : List (String × String)) (b : Option (List Char)),
        field_map ⟨fs, b⟩ = fieldMapL fs := fun _ _ => rfl
    have hFs : fieldMapL [("size", "10000"), ("binary", "4000")] "size" =
        some ["10000", "10000"] := by decide
    have hFb : fieldMapL [("size", "10000"), ("binary", "4000")] "binary" =
        some ["4000", "4000"] := by decide
    have hfile : fieldMapL [("file", "a.flac"), ("Id", "7")] "file" =
        some ["a.flac", "a.flac"] := by decide
    have hid : fieldMapL [("file", "a.flac"), ("Id", "7")] "Id" =
        some ["7", "7"] := by decide
    have hv1 : firstVal ["10000", "10000"] = "10000" := rfl
    have hv2 : firstVal ["4000", "4000"] = "4000" := rfl
    have hv4 : firstVal ["7", "7"] = "7" := rfl
    have h1 : parseU64 "4000".data = some 4000 := by decide
    have h3 : parseU64 "10000".data = some 10000 := by decide
    have hne : ("10000" : String) ≠ "4000" := by decide
    have hgeF : ((4000 : Nat) + (0 + 4000) ≥ 10000) = False := by decide
    have hgeT : ((4000 : Nat) + (0 + 4000 + 4000) ≥ 10000) = True := by decide
    simp only [updateAlbumArt, c9ArtEnv, hmk, hfile, hid]
    simp only [artMethod, hmk, hFb, hFs, Option.isSome_some, if_true, Option.getD_some]
    simp only [hv1, hv2, hv4, ne_eq, hne, not_false_eq_true, if_true, h1]
    simp only [artLoop, hFs, hFb, hv1, hv2, h1, h3, Option.getD_some, hgeF, hgeT,
      if_true, if_false]
  exact ⟨hgen, hgen _ _ _,
    by simp only [List.length_append, List.length_replicate],
    by decide, by decide, by decide⟩
example : (parse_error_line "ACK [2@0] {play} Bad song index\n").isOk = false := by decide
example :
    parse_error_line "ACK [5@0]{play}7\n" =
      .ok { source := .Unknown 5, msg := "play", command_list_no := 7,
            current_command := "0" } := by decide
